import Mathlib

/-!
Verification development for the monoalign repository (src/model/simalign.py).

The source is a word/span aligner.  Its numeric core works on per-sentence
similarity matrices.  We embed the core shallowly:

* a similarity or alignment matrix of shape m x n is a function
  `Nat → Nat → ℚ` together with explicit dimensions (NumPy floats are
  modelled by rationals; the only float-specific behaviour the claims touch
  is division by zero, which we model by `Option`, `none` standing for a
  matrix holding non-finite entries);
* the external collaborators (transformer tokenizer, embedding model,
  cosine similarity of real vectors, the networkx maximum-weight matcher)
  are taken as inputs of the embedded functions, exactly at the interface
  boundary the spec draws in section 6;
* Python lists become Lean lists, dict-with-default accumulation becomes
  association lists preserving first-insertion key order, `sorted` becomes
  insertion sort (stable, so extensionally equal to Python's sort for the
  total orders used).
-/

namespace Simalign

/-- Split a character list at every occurrence of `sep` (Python
`str.split(sep)` semantics on the character level). -/
def splitOnChar (sep : Char) : List Char → List (List Char)
  | [] => [[]]
  | c :: cs =>
    let r := splitOnChar sep cs
    if c = sep then [] :: r else (c :: r.headI) :: r.tail

/-- Python `str.split()` on a sentence: split on space characters and drop
empty pieces (the source only ever feeds space-separated sentences). -/
def pySplit (s : String) : List String :=
  ((splitOnChar ' ' s.toList).map (fun cs => String.mk cs)).filter
    (fun w => w ≠ "")

/-- The `"{}-{}".format(i, j)` link key used throughout the source. -/
def fmtLink (i j : Nat) : String :=
  toString i ++ "-" ++ toString j

/-- Python `int` on a decimal digit string. -/
def digitsToNat (cs : List Char) : Nat :=
  cs.foldl (fun acc c => acc * 10 + (c.toNat - 48)) 0

/-- Parse a canonical `"i-j"` key back into the integer pair, as done by the
sorting keys `(int(x.split('-')[0]), int(x.split('-')[1]))` in the source. -/
def parseLink (s : String) : Nat × Nat :=
  let parts := splitOnChar '-' s.toList
  (digitsToNat (parts.getD 0 []), digitsToNat (parts.getD 1 []))

/-- Python tuple comparison on integer pairs (lexicographic). -/
def pairLexLe (p q : Nat × Nat) : Prop :=
  p.1 < q.1 ∨ (p.1 = q.1 ∧ p.2 ≤ q.2)

instance (p q : Nat × Nat) : Decidable (pairLexLe p q) :=
  inferInstanceAs (Decidable (_ ∨ _))

/-- The comparison used by
`sorted(keys, key=lambda x: (int(x.split('-')[0]), int(x.split('-')[1])))`. -/
def intKeyLe (s t : String) : Prop :=
  pairLexLe (parseLink s) (parseLink t)

instance (s t : String) : Decidable (intKeyLe s t) :=
  inferInstanceAs (Decidable (pairLexLe _ _))

/-- Lexicographic comparison of character lists by code point, the order
Python uses to compare strings. -/
def lexLeChars : List Char → List Char → Bool
  | [], _ => true
  | _ :: _, [] => false
  | a :: as, b :: bs =>
    if a.toNat < b.toNat then true
    else if b.toNat < a.toNat then false
    else lexLeChars as bs

/-- Python string comparison `s <= t`: code-point lexicographic. -/
def strLe (s t : String) : Prop :=
  lexLeChars s.toList t.toList = true

instance (s t : String) : Decidable (strLe s t) :=
  inferInstanceAs (Decidable (_ = true))

/-- Python `sorted(l)` on strings: stable sort by the string order. -/
def sortStr (l : List String) : List String :=
  List.insertionSort strLe l

instance : IsTotal String strLe :=
  ⟨fun s t => by
    show lexLeChars s.toList t.toList = true ∨ lexLeChars t.toList s.toList = true
    generalize s.toList = as
    generalize t.toList = bs
    induction as generalizing bs with
    | nil => left; rfl
    | cons a as ih =>
      cases bs with
      | nil => right; rfl
      | cons b bs =>
        unfold lexLeChars
        rcases Nat.lt_trichotomy a.toNat b.toNat with h | h | h
        · left
          rw [if_pos h]
        · have h1 : ¬ a.toNat < b.toNat := by omega
          have h2 : ¬ b.toNat < a.toNat := by omega
          rw [if_neg h1, if_neg h2, if_neg h2, if_neg h1]
          exact ih bs
        · right
          rw [if_pos h]⟩

instance : IsTrans String strLe :=
  ⟨fun s t u h1 h2 => by
    show lexLeChars s.toList u.toList = true
    revert h1 h2
    show lexLeChars s.toList t.toList = true →
      lexLeChars t.toList u.toList = true →
      lexLeChars s.toList u.toList = true
    generalize s.toList = as
    generalize t.toList = bs
    generalize u.toList = cs
    intro h1 h2
    induction as generalizing bs cs with
    | nil => rfl
    | cons a as ih =>
      cases bs with
      | nil => simp [lexLeChars] at h1
      | cons b bs =>
        cases cs with
        | nil => simp [lexLeChars] at h2
        | cons c cs =>
          unfold lexLeChars at h1 h2 ⊢
          rcases Nat.lt_trichotomy a.toNat b.toNat with hab | hab | hab <;>
            rcases Nat.lt_trichotomy b.toNat c.toNat with hbc | hbc | hbc
          · rw [if_pos (by omega)]
          · rw [if_pos (by omega)]
          · rw [if_neg (by omega), if_pos (by omega)] at h2
            simp at h2
          · rw [if_pos (by omega)]
          · have g1 : ¬ a.toNat < b.toNat := by omega
            have g2 : ¬ b.toNat < a.toNat := by omega
            have g3 : ¬ b.toNat < c.toNat := by omega
            have g4 : ¬ c.toNat < b.toNat := by omega
            rw [if_neg g1, if_neg g2] at h1
            rw [if_neg g3, if_neg g4] at h2
            rw [if_neg (by omega : ¬ a.toNat < c.toNat),
              if_neg (by omega : ¬ c.toNat < a.toNat)]
            exact ih bs cs h1 h2
          · rw [if_neg (by omega), if_pos (by omega)] at h2
            simp at h2
          · rw [if_neg (by omega), if_pos (by omega)] at h1
            simp at h1
          · rw [if_neg (by omega), if_pos (by omega)] at h1
            simp at h1
          · rw [if_neg (by omega), if_pos (by omega)] at h1
            simp at h1⟩

/-- Executable check that a list of integer pairs is ascending in the
Python tuple order (used to state sortedness of parsed link tokens). -/
def chainPairLe : List (Nat × Nat) → Bool
  | [] => true
  | [_] => true
  | p :: q :: l => decide (pairLexLe p q) && chainPairLe (q :: l)

/-- Python `sorted(l, key=int-pair)`: stable sort by the parsed pair. -/
def sortIntKey (l : List String) : List String :=
  List.insertionSort intKeyLe l

/-- First-occurrence deduplication, the key order of a Python dict. -/
def dedupKeys (seen : List String) : List String → List String
  | [] => []
  | a :: l => if a ∈ seen then dedupKeys seen l else a :: dedupKeys (a :: seen) l

/-- Row-major enumeration of the index pairs of an m x n matrix, the order of
the nested `for i in range(m): for j in range(n)` loops of the source. -/
def pairsRM (m n : Nat) : List (Nat × Nat) :=
  (List.range m).flatMap (fun i => (List.range n).map (fun j => (i, j)))

/-- Sum of one matrix row over the n columns (`inter.sum(1)` entries). -/
def rowSum (n : Nat) (M : Nat → Nat → ℚ) (i : Nat) : ℚ :=
  ((List.range n).map (M i)).sum

/-- Sum of one matrix column over the m rows (`inter.sum(0)` entries). -/
def colSum (m : Nat) (M : Nat → Nat → ℚ) (j : Nat) : ℚ :=
  ((List.range m).map (fun i => M i j)).sum

/-- Sum of all entries of an m x n matrix (`mask.sum()`). -/
def matSum (m n : Nat) (M : Nat → Nat → ℚ) : ℚ :=
  ((pairsRM m n).map (fun p => M p.1 p.2)).sum

/-- `np.max` over the m x n entries.  The source only compares this maximum
against 0 (`while np.max(sim_matrix) > 0`), so we fold from 0: the guard
`0 < matMax` agrees with NumPy on every nonempty matrix, and is `False` on an
empty one (where NumPy would raise). -/
def matMax (m n : Nat) (M : Nat → Nat → ℚ) : ℚ :=
  (pairsRM m n).foldl (fun acc p => max acc (M p.1 p.2)) 0

/-- `np.min` over the m x n entries, folded from entry (0,0); faithful on
nonempty matrices, which is the only place the source uses it. -/
def matMin (m n : Nat) (M : Nat → Nat → ℚ) : ℚ :=
  (pairsRM m n).foldl (fun acc p => min acc (M p.1 p.2)) (M 0 0)

/-- `np.argmax` over one row: first column index attaining the row maximum
(NumPy's argmax returns the first occurrence). -/
def argmaxRow (n : Nat) (M : Nat → Nat → ℚ) (i : Nat) : Nat :=
  (List.range n).foldl (fun best j => if M i best < M i j then j else best) 0

/-- `np.argmax` over one column: first row index attaining the column max. -/
def argmaxCol (m : Nat) (M : Nat → Nat → ℚ) (j : Nat) : Nat :=
  (List.range m).foldl (fun best i => if M best j < M i j then i else best) 0

/-- `np.eye(n)[sim_matrix.argmax(axis=1)]` : the m x n one-hot forward
(row-argmax) matrix. -/
def fwdOneHot (n : Nat) (M : Nat → Nat → ℚ) : Nat → Nat → ℚ :=
  fun i j => if j = argmaxRow n M i then 1 else 0

/-- `np.eye(m)[sim_matrix.argmax(axis=0)]` transposed: the m x n one-hot
backward (column-argmax) matrix, already in `backward.transpose()` form. -/
def bwdOneHotT (m : Nat) (M : Nat → Nat → ℚ) : Nat → Nat → ℚ :=
  fun i j => if i = argmaxCol m M j then 1 else 0

/-- `Simalign.get_alignment_matrix`: returns `(forward, backward.transpose())`,
both m x n. -/
def get_alignment_matrix (m n : Nat) (sim : Nat → Nat → ℚ) :
    (Nat → Nat → ℚ) × (Nat → Nat → ℚ) :=
  (fwdOneHot n sim, bwdOneHotT m sim)

/-- `Simalign.get_similarity_norm`: min-max normalisation of the raw cosine
matrix `data` (the cosine computation itself is the external embedding side,
so `data` is the input here).  When `max(data) == min(data)` the Python code
divides by zero and the result holds non-finite values (NumPy emits NaN/inf
rather than raising); `none` models that non-finite outcome. -/
def get_similarity_norm (m n : Nat) (data : Nat → Nat → ℚ) :
    Option (Nat → Nat → ℚ) :=
  let lo := matMin m n data
  let range := matMax m n data - lo
  if range = 0 then none
  else some (fun i j => (data i j - lo) / range)

/-- `Simalign.apply_distortion` (lines 186-196): identity when a dimension is
below 2 or the ratio is 0; otherwise multiply by the positional mask
`1 - ((j/(n-1)) - (i/(m-1)))^2 * ratio`. -/
def apply_distortion (m n : Nat) (sim : Nat → Nat → ℚ) (ratio : ℚ) :
    Nat → Nat → ℚ :=
  if (m < 2 ∨ n < 2) ∨ ratio = 0 then sim
  else fun i j =>
    sim i j * (1 - (((j : ℚ) / ((n : ℚ) - 1) - (i : ℚ) / ((m : ℚ) - 1)) ^ 2) * ratio)

/-- `np.clip(x, 0.0, 1.0)` on a single entry. -/
def clip01 (x : ℚ) : ℚ := min (max x 0) 1

/-- Entrywise equality of two m x n matrices (`np.array_equal`). -/
def matEqOn (m n : Nat) (A B : Nat → Nat → ℚ) : Bool :=
  (pairsRM m n).all (fun p => decide (A p.1 p.2 = B p.1 p.2))

/-- The `while count < max_count` body of `Simalign.iter_max`
(lines 237-270), with `fuel = max_count - count` remaining rounds. -/
def iterMaxLoop (m n : Nat) (sim : Nat → Nat → ℚ) :
    Nat → (Nat → Nat → ℚ) → (Nat → Nat → ℚ)
  | 0, inter => inter
  | fuel + 1, inter =>
    let mask_x := fun (i : Nat) (_ : Nat) => 1 - clip01 (rowSum n inter i)
    let mask_y := fun (_ : Nat) (j : Nat) => 1 - clip01 (colSum m inter j)
    let mask := fun i j => clip01 ((9/10 : ℚ) * mask_x i j + (9/10 : ℚ) * mask_y i j)
    let mask_zeros := fun i j => 1 - (1 - mask_x i j) * (1 - mask_y i j)
    let degen := matSum m n mask_x < 1 ∨ matSum m n mask_y < 1
    let mask := if degen then fun _ _ => (0 : ℚ) else mask
    let mask_zeros := if degen then fun _ _ => (0 : ℚ) else mask_zeros
    let new_sim := fun i j => sim i j * mask i j
    let fwd := fun i j => fwdOneHot n new_sim i j * mask_zeros i j
    let bac := fun i j => bwdOneHotT m new_sim i j * mask_zeros i j
    let new_inter := fun i j => fwd i j * bac i j
    if matEqOn m n (fun i j => inter i j + new_inter i j) inter then inter
    else iterMaxLoop m n sim fuel (fun i j => inter i j + new_inter i j)

/-- `Simalign.iter_max` (lines 224-272): start from
`inter = forward * 0.5 + backward.transpose() * 0.5`; return it directly when
`min(m, n) <= 2`, otherwise run up to `max_count - 1` extra rounds. -/
def iter_max (m n : Nat) (sim : Nat → Nat → ℚ) (max_count : Nat) :
    Nat → Nat → ℚ :=
  let inter := fun i j =>
    fwdOneHot n sim i j * (1/2 : ℚ) + bwdOneHotT m sim i j * (1/2 : ℚ)
  if min m n ≤ 2 then inter
  else iterMaxLoop m n sim (max_count - 1) inter

/-- In-place `sim_matrix[x][y] = v` as a functional update. -/
def updCell (x y : Nat) (v : ℚ) (M : Nat → Nat → ℚ) : Nat → Nat → ℚ :=
  fun a b => if a = x ∧ b = y then v else M a b

/-- In-place `sim_matrix[i] = 0.` (zero a whole row). -/
def zeroRow (i : Nat) (M : Nat → Nat → ℚ) : Nat → Nat → ℚ :=
  fun a b => if a = i then 0 else M a b

/-- In-place `sim_matrix[:, j] = 0.` (zero a whole column). -/
def zeroCol (j : Nat) (M : Nat → Nat → ℚ) : Nat → Nat → ℚ :=
  fun a b => if b = j then 0 else M a b

/-- Lines 213-216 of the source: for every word `e` of the committed source
span `src_spans[x]`, zero the row of every source span containing `e`. -/
def zeroSrcRows (src_spans : List (List Nat)) (x : Nat)
    (M : Nat → Nat → ℚ) : Nat → Nat → ℚ :=
  (src_spans.getD x []).foldl
    (fun M0 e =>
      src_spans.enum.foldl
        (fun M1 p => if e ∈ p.2 then zeroRow p.1 M1 else M1) M0)
    M

/-- Lines 218-221 of the source: likewise on the target side, zeroing the
column of every target span containing a word of `tgt_spans[y]`. -/
def zeroTgtCols (tgt_spans : List (List Nat)) (y : Nat)
    (M : Nat → Nat → ℚ) : Nat → Nat → ℚ :=
  (tgt_spans.getD y []).foldl
    (fun M0 e =>
      tgt_spans.enum.foldl
        (fun M1 p => if e ∈ p.2 then zeroCol p.1 M1 else M1) M0)
    M

/-- `x, y = np.where(sim == np.max(sim)); x, y = int(x[0]), int(y[0])`:
the first cell, in row-major order, attaining the maximum.  Only used under
the guard `0 < matMax m n M`, where the maximum is attained. -/
def firstMaxCell (m n : Nat) (M : Nat → Nat → ℚ) : Nat × Nat :=
  ((pairsRM m n).find? (fun p => decide (M p.1 p.2 = matMax m n M))).getD (0, 0)

/-- The `while np.max(sim_matrix) > 0` loop of `Simalign.get_alignmatrix_iter`
(lines 205-221).  Python mutates `sim_matrix` in place; here the state is
passed explicitly and the committed cells are accumulated in order.  Every
iteration writes only zeros and turns the committed positive cell to 0, so
the loop runs at most m*n times: fuel m*n makes the embedding total without
truncating any run the Python loop performs. -/
def alignIterGo (src_spans tgt_spans : List (List Nat)) (m n : Nat) :
    Nat → (Nat → Nat → ℚ) → List (Nat × Nat) →
    List (Nat × Nat) × (Nat → Nat → ℚ)
  | 0, M, acc => (acc, M)
  | fuel + 1, M, acc =>
    if 0 < matMax m n M then
      let c := firstMaxCell m n M
      let M1 := updCell c.1 c.2 0 M
      let M2 := zeroSrcRows src_spans c.1 M1
      let M3 := zeroTgtCols tgt_spans c.2 M2
      alignIterGo src_spans tgt_spans m n fuel M3 (acc ++ [c])
    else (acc, M)

/-- One full run of the span-iterative matcher: the committed cells together
with the final state of the (in Python: caller-owned, mutated in place)
similarity matrix. -/
def alignIterRun (m n : Nat) (sim : Nat → Nat → ℚ)
    (src_spans tgt_spans : List (List Nat)) :
    List (Nat × Nat) × (Nat → Nat → ℚ) :=
  alignIterGo src_spans tgt_spans m n (m * n) sim []

/-- `Simalign.get_alignmatrix_iter` (lines 198-222): the returned m x n
alignment matrix, holding 1 exactly at the committed cells. -/
def get_alignmatrix_iter (m n : Nat) (sim : Nat → Nat → ℚ)
    (src_spans tgt_spans : List (List Nat)) : Nat → Nat → ℚ :=
  fun i j => if (i, j) ∈ (alignIterRun m n sim src_spans tgt_spans).1 then 1 else 0

/-- Python slice `l[i : i + d]`. -/
def pySlice (l : List Nat) (i d : Nat) : List Nat :=
  (l.drop i).take d

/-- `[idx[i : i + d] for i in range(0, len(idx)) if i + d <= len(idx)]`:
all contiguous windows of length `d` over the index list. -/
def span_windows (idx : List Nat) (d : Nat) : List (List Nat) :=
  ((List.range idx.length).filter (fun i => i + d ≤ idx.length)).map
    (fun i => pySlice idx i d)

/-- The per-sentence span enumeration of `get_span_index`: for each span
length `d` in `1..max_d`, extend with all windows of length `d`. -/
def sent_spans (idx : List Nat) (max_d : Nat) : List (List Nat) :=
  ((List.range' 1 max_d).map (span_windows idx)).flatten

/-- `Simalign.get_span_index` (lines 307-321): per sentence, spans over the
word indices `range(len(sentence.split()))`, grouped by length then start.
The Python loop runs over `range(len(source_sentences))` and indexes
`target_sentences[sent_id]`, so it presumes equal-length inputs (it raises
IndexError otherwise); theorems about it therefore carry that hypothesis. -/
def get_span_index (source_sentences target_sentences : List String)
    (max_d : Nat) : List (List (List Nat)) × List (List (List Nat)) :=
  ((List.range source_sentences.length).map (fun sid =>
      sent_spans (List.range (pySplit (source_sentences.getD sid "")).length) max_d),
   (List.range source_sentences.length).map (fun sid =>
      sent_spans (List.range (pySplit (target_sentences.getD sid "")).length) max_d))

/-- The five resolved matching methods, the values of the source's
`all_matching_methods = {"a": "inter", "m": "mwmf", "i": "itermax",
"f": "fwd", "r": "rev"}` table. -/
inductive MatchMethod where
  | inter
  | mwmf
  | itermax
  | fwd
  | rev
deriving DecidableEq, Repr

/-- The configuration state stored by `Simalign.__init__` (lines 92-99).
`matching_methods` is the already-resolved method (the dict value). -/
structure Config where
  model : String
  token_type : String
  distortion : ℚ
  null_align : ℚ
  matching_methods : MatchMethod
  device : String
deriving DecidableEq, Repr

/-- The method table of `__init__`, keyed by the whole
`matching_methods` argument string. -/
def all_matching_methods : List (String × MatchMethod) :=
  [("a", .inter), ("m", .mwmf), ("i", .itermax), ("f", .fwd), ("r", .rev)]

/-- `Simalign.__init__` (lines 83-101) up to the construction of the
`EmbeddingLoader`.  The dict lookup
`all_matching_methods[matching_methods]` uses the whole argument string as
key and raises `KeyError` when it is absent; this happens on line 98, before
the embedding model is loaded on line 101, so the error branch returns
before any model name would be passed to the loader. -/
def simalign_init (model token_type : String) (distortion null_align : ℚ)
    (matching_methods device : String) : Except String Config :=
  let model_names : List (String × String) :=
    [("bert", "bert-base-multilingual-cased"),
     ("spanbert", "SpanBERT/spanbert-base-cased")]
  let resolved := (model_names.lookup model).getD model
  match all_matching_methods.lookup matching_methods with
  | some mm =>
      .ok { model := resolved, token_type := token_type,
            distortion := distortion, null_align := null_align,
            matching_methods := mm, device := device }
  | none => .error ("KeyError: " ++ matching_methods)

/-- Python list indexing `l[i]`, raising IndexError out of range. -/
def pyGet (l : List α) (i : Nat) : Except String α :=
  match l.get? i with
  | some a => .ok a
  | none => .error "IndexError"

/-- One sentence tokenized by the external sub-word tokenizer:
`[tokenizer.tokenize(word) for word in sentence.split()]`. -/
def tokenize_sent (tok : String → List String) (s : String) :
    List (List String) :=
  (pySplit s).map tok

/-- The `words_tokens` loop shared by all four entry points (for
`align_sentences`: lines 635-639).  It iterates over
`range(len(source_sentences))` and indexes both lists, so a target list that
is too short raises IndexError only when the loop reaches the missing index,
after the earlier pairs were already tokenized; a target list that is too
long is silently truncated.  No length validation exists anywhere (the
`corpora_lengths` pair on line 649 is computed but never used). -/
def words_tokens_phase (tok : String → List String)
    (source_sentences target_sentences : List String) :
    Except String (List (List (List String) × List (List String))) :=
  (List.range source_sentences.length).foldl
    (fun acc sid => do
      let wt ← acc
      let s ← pyGet source_sentences sid
      let t ← pyGet target_sentences sid
      .ok (wt ++ [(tokenize_sent tok s, tokenize_sent tok t)]))
    (.ok [])

/-- The sub-word to word map of one sentence:
`[i for i, w in enumerate(sent) for _ in w]` (line 645). -/
def b2wMap (sent : List (List String)) : List Nat :=
  sent.enum.flatMap (fun p => List.replicate p.2.length p.1)

/-- Number of sub-word tokens of one tokenized sentence
(`len(sent_pair[k])` for the flattened BPE list). -/
def bpeCount (sent : List (List String)) : Nat :=
  (sent.map List.length).sum

/-- The cells `(i, j)` with `all_mats[ext][i, j] > 0`, visited in the
row-major order of the nested loops (lines 697-700). -/
def linkCells (m n : Nat) (mat : Nat → Nat → ℚ) : List (Nat × Nat) :=
  (pairsRM m n).filter (fun p => decide (0 < mat p.1 p.2))

/-- The per-sentence-pair core of `Simalign.align_sentences`
(lines 669-718), producing the sorted key list that is then joined with
spaces.  External inputs: the tokenized word lists `wt` of the pair (from
`words_tokens`), the similarity matrix `sim0` (from the embedding vectors:
the `torch.bmm` product in BPE mode, `get_similarity` of word-averaged
vectors in word mode), and the networkx maximum-weight matching result
`mwmfA` (an external capability, used only when the method is `mwmf`).
The final `sorted(...)` on lines 714/717 is Python's plain string sort:
no integer key is supplied there. -/
def align_one_unsorted_keys (cfg : Config)
    (wt : List (List String) × List (List String))
    (sim0 : Nat → Nat → ℚ) (mwmfA : Nat → Nat → ℚ) : List String :=
  let convert_to_words := cfg.token_type = "word"
  let m := if convert_to_words then wt.1.length else bpeCount wt.1
  let n := if convert_to_words then wt.2.length else bpeCount wt.2
  let sim := apply_distortion m n sim0 cfg.distortion
  let mat :=
    match cfg.matching_methods with
    | .fwd => (get_alignment_matrix m n sim).1
    | .rev => (get_alignment_matrix m n sim).2
    | .inter => fun i j =>
        (get_alignment_matrix m n sim).1 i j * (get_alignment_matrix m n sim).2 i j
    | .mwmf => mwmfA
    | .itermax => iter_max m n sim 2
  let cells := linkCells m n mat
  let rawKeys := dedupKeys [] (cells.map (fun p => fmtLink p.1 p.2))
  let b2wS := b2wMap wt.1
  let b2wT := b2wMap wt.2
  let b2wKeys :=
    if cfg.token_type = "bpe" then
      dedupKeys [] (cells.map (fun p => fmtLink (b2wS.getD p.1 0) (b2wT.getD p.2 0)))
    else []
  if convert_to_words then rawKeys else b2wKeys

/-- The sorted key list of one pair: both output branches of the source
(lines 714 and 717) sort their dict's keys with the same plain `sorted`, so
the sort commutes with the branch selection. -/
def align_one_keys (cfg : Config)
    (wt : List (List String) × List (List String))
    (sim0 : Nat → Nat → ℚ) (mwmfA : Nat → Nat → ℚ) : List String :=
  sortStr (align_one_unsorted_keys cfg wt sim0 mwmfA)

/-- The alignment string of one sentence pair: `' '.join(sorted(keys))`. -/
def align_one (cfg : Config)
    (wt : List (List String) × List (List String))
    (sim0 : Nat → Nat → ℚ) (mwmfA : Nat → Nat → ℚ) : String :=
  String.intercalate " " (align_one_keys cfg wt sim0 mwmfA)

/-- `Simalign.align_sentences` (lines 631-719).  The DataLoader batches
preserve input order, so the embedding is the order-preserving map of the
per-pair core over the tokenized pairs.  `simOf sid` and `mwmfOf sid` are
the external per-pair similarity matrix and max-weight matching. -/
def align_sentences (tok : String → List String)
    (simOf mwmfOf : Nat → Nat → Nat → ℚ) (cfg : Config)
    (source_sentences target_sentences : List String) :
    Except String (List String) := do
  let wts ← words_tokens_phase tok source_sentences target_sentences
  .ok (wts.enum.map (fun p => align_one cfg p.2 (simOf p.1) (mwmfOf p.1)))

/-- `defaultdict(lambda: 0)` accumulation: add `v` to the value stored under
key `k`, inserting the key at the end on first sight (Python dicts keep
first-insertion order). -/
def addScore (k : String) (v : ℚ) : List (String × ℚ) → List (String × ℚ)
  | [] => [(k, v)]
  | p :: rest =>
    if p.1 = k then (p.1, p.2 + v) :: rest else p :: addScore k v rest

/-- `Simalign.get_alignments_freq` (lines 170-184): distribute the weight of
every matched span cell fractionally over the word pairs it covers. -/
def get_alignments_freq (m n : Nat) (al_matrix : Nat → Nat → ℚ)
    (src_spans tgt_spans : List (List Nat)) : List (String × ℚ) :=
  (pairsRM m n).foldl
    (fun d p =>
      if 0 < al_matrix p.1 p.2 then
        let ss := src_spans.getD p.1 []
        let ts := tgt_spans.getD p.2 []
        (ss.flatMap (fun x => ts.map (fun y => (x, y)))).foldl
          (fun d2 q =>
            addScore (fmtLink q.1 q.2)
              (al_matrix p.1 p.2 / ((ss.length : ℚ) * (ts.length : ℚ))) d2)
          d
      else d)
    []

/-- The key expansion shared by the span modes: for every matched span cell,
every `(word_x, word_y)` pair of the span cross product, in loop order,
duplicates kept (`span_scores` dict keys dedup them afterwards). -/
def spanPairKeys (m n : Nat) (A : Nat → Nat → ℚ)
    (row_spans col_spans : List (List Nat)) : List String :=
  (pairsRM m n).foldl
    (fun ks p =>
      if 0 < A p.1 p.2 then
        ks ++ (row_spans.getD p.1 []).flatMap
          (fun x => (col_spans.getD p.2 []).map (fun y => fmtLink x y))
      else ks)
    []

/-- As `spanPairKeys`, but with the key formatted `"y-x"` (the swapped
format of the target-to-source pass of `align_spans_bidirection`). -/
def spanPairKeysSwapped (m n : Nat) (A : Nat → Nat → ℚ)
    (row_spans col_spans : List (List Nat)) : List String :=
  (pairsRM m n).foldl
    (fun ks p =>
      if 0 < A p.1 p.2 then
        ks ++ (row_spans.getD p.1 []).flatMap
          (fun x => (col_spans.getD p.2 []).map (fun y => fmtLink y x))
      else ks)
    []

/-- `Simalign.align_spans_iter` (lines 369-438).  `cfg` is the constructed
object (the method reads none of its fields besides the device, which does
not influence the result); `tok` is the external tokenizer and `simOf sid`
the external span-level normalised similarity matrix of sentence `sid`
(`get_similarity_norm` of span-averaged vectors).  Per pair: run the greedy
conflict-free matcher, expand committed span pairs into word links, and join
the keys sorted by integer pair (lines 435-436 do pass the int key there). -/
def align_spans_iter (tok : String → List String)
    (simOf : Nat → Nat → Nat → ℚ) (cfg : Config)
    (source_sentences target_sentences : List String) :
    Except String (List String) := do
  let _wts ← words_tokens_phase tok source_sentences target_sentences
  let spans := get_span_index source_sentences target_sentences 3
  let _ := cfg.device
  .ok ((List.range source_sentences.length).map (fun sid =>
    let ss := spans.1.getD sid []
    let ts := spans.2.getD sid []
    let m := ss.length
    let n := ts.length
    let A := get_alignmatrix_iter m n (simOf sid) ss ts
    String.intercalate " " (sortIntKey (dedupKeys [] (spanPairKeys m n A ss ts)))))

/-- `Simalign.align_spans_freq` (lines 440-520): span-level similarity,
`0.5*forward + 0.5*reverse` matcher, fractional-weight aggregation, then
only the keys whose accumulated weight reaches 1.0 survive, sorted by
integer pair. -/
def align_spans_freq (tok : String → List String)
    (simOf : Nat → Nat → Nat → ℚ) (cfg : Config)
    (source_sentences target_sentences : List String) :
    Except String (List String) := do
  let _wts ← words_tokens_phase tok source_sentences target_sentences
  let spans := get_span_index source_sentences target_sentences 3
  let _ := cfg.device
  .ok ((List.range source_sentences.length).map (fun sid =>
    let ss := spans.1.getD sid []
    let ts := spans.2.getD sid []
    let m := ss.length
    let n := ts.length
    let sim := simOf sid
    let fr := get_alignment_matrix m n sim
    let A := fun i j => fr.1 i j * (1/2 : ℚ) + fr.2 i j * (1/2 : ℚ)
    let span_scores := get_alignments_freq m n A ss ts
    String.intercalate " "
      (sortIntKey ((span_scores.filter (fun p => decide ((1 : ℚ) ≤ p.2))).map Prod.fst))))

/-- `Simalign.align_spans_bidirection` (lines 522-629): one pass with all
source spans against single-word target spans, one pass with all target
spans against single-word source spans (keys swapped), each pass taking the
`reverse` (column-argmax) matcher and joining its keys by plain string sort
(lines 620/623); the final result keeps, per sentence, the source-to-target
keys also present in the target-to-source pass, sorted by integer pair.
`simOf1 sid` and `simOf2 sid` are the external similarity matrices of the
two passes. -/
def align_spans_bidirection (tok : String → List String)
    (simOf1 simOf2 : Nat → Nat → Nat → ℚ) (cfg : Config)
    (source_sentences target_sentences : List String) :
    Except String (List String) := do
  let _wts ← words_tokens_phase tok source_sentences target_sentences
  let spans := get_span_index source_sentences target_sentences 3
  let _ := cfg.device
  .ok ((List.range source_sentences.length).map (fun sid =>
    let ss := spans.1.getD sid []
    let ts := spans.2.getD sid []
    let src_words := ss.filter (fun sp => sp.length = 1)
    let tgt_words := ts.filter (fun sp => sp.length = 1)
    let A1 := (get_alignment_matrix ss.length tgt_words.length (simOf1 sid)).2
    let s2t := sortStr (dedupKeys [] (spanPairKeys ss.length tgt_words.length A1 ss tgt_words))
    let A2 := (get_alignment_matrix ts.length src_words.length (simOf2 sid)).2
    let t2s := sortStr (dedupKeys [] (spanPairKeysSwapped ts.length src_words.length A2 ts src_words))
    String.intercalate " " (sortIntKey (s2t.filter (fun k => k ∈ t2s)))))

/-! ### Notions used to reason about the span-iterative matcher -/

/-- `M1` agrees with `M` except on entries overwritten with 0: the shape of
every write the span-iterative loop performs. -/
def SubZero (M1 M : Nat → Nat → ℚ) : Prop :=
  ∀ a b, M1 a b = M a b ∨ M1 a b = 0

/-- Two committed cells are conflict-free: their source spans share no word
index and their target spans share no word index. -/
def spanConflictFree (src_spans tgt_spans : List (List Nat))
    (p q : Nat × Nat) : Prop :=
  (∀ e, e ∈ src_spans.getD p.1 [] → e ∉ src_spans.getD q.1 []) ∧
  (∀ e, e ∈ tgt_spans.getD p.2 [] → e ∉ tgt_spans.getD q.2 [])

/-- Invariant of the span-iterative loop: the committed list is pairwise
conflict-free, and every row (column) whose span meets a committed source
(target) span is already all zero. -/
def IterInv (src_spans tgt_spans : List (List Nat))
    (M : Nat → Nat → ℚ) (acc : List (Nat × Nat)) : Prop :=
  acc.Pairwise (spanConflictFree src_spans tgt_spans) ∧
  (∀ p ∈ acc, ∀ a, a < src_spans.length →
    (∃ e, e ∈ src_spans.getD p.1 [] ∧ e ∈ src_spans.getD a []) →
    ∀ b, M a b = 0) ∧
  (∀ p ∈ acc, ∀ c, c < tgt_spans.length →
    (∃ e, e ∈ tgt_spans.getD p.2 [] ∧ e ∈ tgt_spans.getD c []) →
    ∀ a, M a c = 0)

/-! ### Concrete instances used by witnesses and counterexamples -/

/-- A trivial external tokenizer: every word is its own single sub-word. -/
def tok0 : String → List String := fun w => [w]

/-- Word-level configuration with the forward matcher and no distortion. -/
def cfgWordFwd : Config :=
  { model := "bert-base-multilingual-cased", token_type := "word",
    distortion := 0, null_align := 1, matching_methods := .fwd,
    device := "cpu" }

/-- The same configuration with a different null-alignment parameter. -/
def cfgWordFwdNull0 : Config :=
  { model := "bert-base-multilingual-cased", token_type := "word",
    distortion := 0, null_align := 0, matching_methods := .fwd,
    device := "cpu" }

/-- A constant per-sentence similarity: every cell 1. -/
def simAll1 : Nat → Nat → Nat → ℚ := fun _ _ _ => 1

/-- A zero external max-weight matching (unused by the forward method). -/
def mwmf0 : Nat → Nat → Nat → ℚ := fun _ _ _ => 0

/-- A 2 x 2 similarity with a strict maximum at (0,0). -/
def simPeak : Nat → Nat → ℚ := fun i j => if i = 0 ∧ j = 0 then 2 else 1

/-- A similarity with a dominant diagonal, integer-valued. -/
def simDiag : Nat → Nat → ℚ := fun i j => if i = j then 2 else 1

end Simalign

namespace Simalign

/-! ### Theorems -/

/-- Claim C2 (code_bug evidence): `align_sentences` performs no validation of
the sentence-list lengths.  On the mismatched batch
`source = ["a"], target = ["a", "b"]` it tokenizes, aligns and returns one
alignment string instead of rejecting the batch: the `corpora_lengths` pair
the source computes on line 649 is never consulted.  (With a source list
longer than the target the same missing check surfaces as an IndexError from
`target_sentences[sent_id]` only after the earlier pairs were tokenized.) -/
theorem align_sentences_length_mismatch_not_rejected :
    align_sentences tok0 simAll1 mwmf0 cfgWordFwd ["a"] ["a", "b"] =
      .ok ["0-0"] := by
  rfl

/-- Claim C3 (code_bug evidence): `get_similarity_norm` contains no guard for
a constant cosine matrix.  On the constant matrix it computes
`(data - min) / (max - min)` with `max - min = 0`; the embedding returns
`none`, standing for the non-finite (NaN) entries NumPy produces, instead of
the zero or uniform matrix the specification demands. -/
theorem get_similarity_norm_constant_matrix_nonfinite :
    get_similarity_norm 2 2 (fun _ _ => 1) = none := by
  have h1 : matMax 2 2 (fun _ _ => (1 : ℚ)) = 1 := by decide
  have h2 : matMin 2 2 (fun _ _ => (1 : ℚ)) = 1 := by decide
  simp [get_similarity_norm, h1, h2]

/-- Claim C4 (code_bug evidence): `get_alignmatrix_iter` mutates the
similarity matrix it is given.  On the 1 x 1 matrix `[[1]]` with spans
`[[0]]`, after the matcher runs, the caller-visible matrix holds 0 at (0,0)
where the input held 1 — the final state differs from the input, so
`align_spans_iter`, which reads `sim[i, j]` for link scores after the call
(line 432), observes zeroed-out values. -/
theorem get_alignmatrix_iter_mutates_input :
    (alignIterRun 1 1 (fun _ _ => 1) [[0]] [[0]]).2 0 0 = 0 ∧
    (fun _ _ => (1 : ℚ)) 0 0 = 1 :=
  ⟨by decide, rfl⟩

/-- Claim C6: on any matrix with `min(m, n) ≤ 2`, `iter_max` returns exactly
`forward * 0.5 + backward.transpose() * 0.5`, the weighted combination of
the two argmax one-hot matrices of `get_alignment_matrix`, with no further
iteration rounds. -/
theorem iter_max_small_returns_half_forward_backward
    (m n : Nat) (sim : Nat → Nat → ℚ) (h : min m n ≤ 2) :
    iter_max m n sim 2 =
      fun i j => (get_alignment_matrix m n sim).1 i j * (1/2 : ℚ) +
                 (get_alignment_matrix m n sim).2 i j * (1/2 : ℚ) := by
  simp [iter_max, get_alignment_matrix, h]

/-- Witness for C6 at the concrete 2 x 3 matrix `simDiag`. -/
theorem iter_max_small_returns_half_forward_backward_witness :
    min 2 3 ≤ 2 ∧
    iter_max 2 3 simDiag 2 =
      fun i j => (get_alignment_matrix 2 3 simDiag).1 i j * (1/2 : ℚ) +
                 (get_alignment_matrix 2 3 simDiag).2 i j * (1/2 : ℚ) :=
  ⟨by decide, iter_max_small_returns_half_forward_backward 2 3 simDiag (by decide)⟩

/-- Claim C8: `apply_distortion` is the identity when the ratio is 0 or
either dimension is below 2 (the guard on line 189 returns the input). -/
theorem apply_distortion_identity (m n : Nat) (S : Nat → Nat → ℚ) (ratio : ℚ)
    (h : ratio = 0 ∨ m < 2 ∨ n < 2) :
    apply_distortion m n S ratio = S := by
  have hc : (m < 2 ∨ n < 2) ∨ ratio = 0 := by tauto
  simp [apply_distortion, hc]

/-- Witness for C8 at ratio 0 on a 5 x 5 constant matrix. -/
theorem apply_distortion_identity_witness :
    ((0 : ℚ) = 0 ∨ 5 < 2 ∨ 5 < 2) ∧
    apply_distortion 5 5 (fun _ _ => 3) 0 = (fun _ _ => (3 : ℚ)) :=
  ⟨Or.inl rfl, apply_distortion_identity 5 5 (fun _ _ => 3) 0 (Or.inl rfl)⟩

/-- Claim C10: any `matching_methods` string outside the five single-letter
keys of the method table — the declared default `"mai"` included — makes
`Simalign.__init__` raise `KeyError` at the table lookup (line 98), before
the `EmbeddingLoader` is constructed (line 101), so no model is loaded and
no alignment can run.  Multi-method strings are therefore never accepted. -/
theorem init_unknown_matching_method_keyerror
    (model tt : String) (d na : ℚ) (mm dev : String)
    (h : mm ∉ (["a", "m", "i", "f", "r"] : List String)) :
    simalign_init model tt d na mm dev = .error ("KeyError: " ++ mm) := by
  have h1 : mm ≠ "a" := fun e => h (by simp [e])
  have h2 : mm ≠ "m" := fun e => h (by simp [e])
  have h3 : mm ≠ "i" := fun e => h (by simp [e])
  have h4 : mm ≠ "f" := fun e => h (by simp [e])
  have h5 : mm ≠ "r" := fun e => h (by simp [e])
  have hl : all_matching_methods.lookup mm = none := by
    simp [all_matching_methods, List.lookup, beq_eq_false_iff_ne.mpr h1,
      beq_eq_false_iff_ne.mpr h2, beq_eq_false_iff_ne.mpr h3,
      beq_eq_false_iff_ne.mpr h4, beq_eq_false_iff_ne.mpr h5]
  simp [simalign_init, hl]

/-- Witness for C10 at the default configuration string `"mai"`. -/
theorem init_unknown_matching_method_keyerror_witness :
    "mai" ∉ (["a", "m", "i", "f", "r"] : List String) ∧
    simalign_init "bert" "bpe" 0 1 "mai" "cpu" = .error ("KeyError: " ++ "mai") :=
  ⟨by decide, init_unknown_matching_method_keyerror "bert" "bpe" 0 1 "mai" "cpu" (by decide)⟩

/-- Counting the contiguous windows of length `d ≥ 1` over `L` positions:
there are `L + 1 - d` start indices (truncated subtraction). -/
theorem length_filter_range_window (L d : Nat) (hd : 1 ≤ d) :
    ((List.range L).filter (fun i => i + d ≤ L)).length = L + 1 - d := by
  rcases le_or_lt d L with hdL | hLd
  · have hsplit : L = (L + 1 - d) + (d - 1) := by omega
    rw [hsplit, List.range_add, List.filter_append]
    have hfst : (List.range (L + 1 - d)).filter
        (fun i => i + d ≤ (L + 1 - d) + (d - 1)) = List.range (L + 1 - d) := by
      rw [List.filter_eq_self]
      intro a ha
      have : a < L + 1 - d := List.mem_range.mp ha
      simp only [decide_eq_true_eq]
      omega
    have hsnd : ((List.range (d - 1)).map ((L + 1 - d) + ·)).filter
        (fun i => i + d ≤ (L + 1 - d) + (d - 1)) = [] := by
      rw [List.filter_eq_nil_iff]
      intro a ha
      obtain ⟨b, hb, rfl⟩ := List.mem_map.mp ha
      have : b < d - 1 := List.mem_range.mp hb
      simp only [decide_eq_true_eq]
      omega
    rw [hfst, hsnd, List.length_append, List.length_range, List.length_nil]
    omega
  · have : (List.range L).filter (fun i => i + d ≤ L) = [] := by
      rw [List.filter_eq_nil_iff]
      intro a ha
      have : a < L := List.mem_range.mp ha
      simp only [decide_eq_true_eq]
      omega
    rw [this]
    simp only [List.length_nil]
    omega

/-- The number of windows of one length `d` in the per-sentence span list. -/
theorem span_windows_length (idx : List Nat) (d : Nat) (hd : 1 ≤ d) :
    (span_windows idx d).length = idx.length + 1 - d := by
  rw [span_windows, List.length_map, length_filter_range_window _ _ hd]

/-- Claim C7: on a sentence of word length `L`, `get_span_index` with
`max_d = 3` produces exactly `L + (L-1) + (L-2)` candidate spans for that
sentence; with truncated subtraction this single formula also covers
`L < 3`, where only the nonnegative terms remain. -/
theorem get_span_index_span_count (src tgt : List String)
    (hlen : src.length = tgt.length) (k : Nat) (hk : k < src.length) :
    ((get_span_index src tgt 3).1.getD k []).length =
      (pySplit (src.getD k "")).length +
      ((pySplit (src.getD k "")).length - 1) +
      ((pySplit (src.getD k "")).length - 2) := by
  have hmap : ((List.range src.length).map (fun sid =>
      sent_spans (List.range (pySplit (src.getD sid "")).length) 3)).getD k [] =
      sent_spans (List.range (pySplit (src.getD k "")).length) 3 := by
    rw [List.getD_eq_getElem?_getD, List.getElem?_map, List.getElem?_range hk]
    rfl
  rw [get_span_index, hmap]
  have hr : List.range' 1 3 = [1, 2, 3] := rfl
  rw [sent_spans, hr]
  simp only [List.map_cons, List.map_nil, List.flatten,
    List.length_append, List.length_nil]
  rw [span_windows_length _ 1 (by omega), span_windows_length _ 2 (by omega),
    span_windows_length _ 3 (by omega), List.length_range]
  omega

/-- Witness for C7: the sentence `"a b c d"` (L = 4) yields 4 + 3 + 2 = 9
candidate spans. -/
theorem get_span_index_span_count_witness :
    0 < (["a b c d"] : List String).length ∧
    ((get_span_index ["a b c d"] ["w x y z"] 3).1.getD 0 []).length =
      (pySplit ((["a b c d"] : List String).getD 0 "")).length +
      ((pySplit ((["a b c d"] : List String).getD 0 "")).length - 1) +
      ((pySplit ((["a b c d"] : List String).getD 0 "")).length - 2) :=
  ⟨by decide, get_span_index_span_count ["a b c d"] ["w x y z"] rfl 0 (by decide)⟩

/-- Claim C1 counterexample: on a source sentence of eleven words aligned to
a one-word target with the forward matcher, `align_sentences` returns the
string whose tokens are in plain string-sorted order, where `"10-0"`
precedes `"2-0"`: the token sequence is not ascending by integer pair, since
`(10, 0) ≤ (2, 0)` fails. -/
theorem align_sentences_not_int_pair_sorted :
    align_sentences tok0 simAll1 mwmf0 cfgWordFwd
      ["a a a a a a a a a a a"] ["b"] =
      .ok ["0-0 1-0 10-0 2-0 3-0 4-0 5-0 6-0 7-0 8-0 9-0"] ∧
    chainPairLe
      ((pySplit "0-0 1-0 10-0 2-0 3-0 4-0 5-0 6-0 7-0 8-0 9-0").map parseLink) =
      false :=
  ⟨by rfl, by decide⟩

/-- Claim C1 amended: the alignment string `align_sentences` builds for a
sentence pair is the space-join of its link keys sorted ascending by Python
string comparison (code-point lexicographic), for every configuration,
tokenized pair, similarity matrix and external max-weight matching. -/
theorem align_one_keys_sorted_lexicographically (cfg : Config)
    (wt : List (List String) × List (List String))
    (sim0 mwmfA : Nat → Nat → ℚ) :
    align_one cfg wt sim0 mwmfA =
      String.intercalate " " (align_one_keys cfg wt sim0 mwmfA) ∧
    List.Sorted strLe (align_one_keys cfg wt sim0 mwmfA) := by
  refine ⟨rfl, ?_⟩
  unfold align_one_keys sortStr
  exact List.sorted_insertionSort strLe _

/-- Claim C9: the null-alignment parameter has no effect on any output.  For
two configurations equal in every field except `null_align`, all four entry
points return identical results on identical inputs: `self.null_align` is
stored by `__init__` and then only logged, and `gather_null_aligns` and
`apply_percentile_null_aligns` (the entropy-based null filter) are never
called by any alignment mode. -/
theorem null_align_no_effect (c1 c2 : Config)
    (hm : c1.model = c2.model) (ht : c1.token_type = c2.token_type)
    (hd : c1.distortion = c2.distortion)
    (hmm : c1.matching_methods = c2.matching_methods)
    (hdev : c1.device = c2.device)
    (tok : String → List String)
    (simOf mwmfOf simOf1 simOf2 : Nat → Nat → Nat → ℚ)
    (src tgt : List String) :
    align_sentences tok simOf mwmfOf c1 src tgt =
      align_sentences tok simOf mwmfOf c2 src tgt ∧
    align_spans_iter tok simOf c1 src tgt =
      align_spans_iter tok simOf c2 src tgt ∧
    align_spans_freq tok simOf c1 src tgt =
      align_spans_freq tok simOf c2 src tgt ∧
    align_spans_bidirection tok simOf1 simOf2 c1 src tgt =
      align_spans_bidirection tok simOf1 simOf2 c2 src tgt := by
  obtain ⟨m1, t1, d1, n1, mm1, dev1⟩ := c1
  obtain ⟨m2, t2, d2, n2, mm2, dev2⟩ := c2
  simp only [Config.model, Config.token_type, Config.distortion,
    Config.matching_methods, Config.device] at hm ht hd hmm hdev
  subst hm ht hd hmm hdev
  exact ⟨rfl, rfl, rfl, rfl⟩

/-- Witness for C9: configurations differing only in `null_align` (1 versus
0) produce identical outputs on a concrete batch. -/
theorem null_align_no_effect_witness :
    align_sentences tok0 simAll1 mwmf0 cfgWordFwd ["a b"] ["x y"] =
      align_sentences tok0 simAll1 mwmf0 cfgWordFwdNull0 ["a b"] ["x y"] ∧
    align_spans_iter tok0 simAll1 cfgWordFwd ["a b"] ["x y"] =
      align_spans_iter tok0 simAll1 cfgWordFwdNull0 ["a b"] ["x y"] ∧
    align_spans_freq tok0 simAll1 cfgWordFwd ["a b"] ["x y"] =
      align_spans_freq tok0 simAll1 cfgWordFwdNull0 ["a b"] ["x y"] ∧
    align_spans_bidirection tok0 simAll1 simAll1 cfgWordFwd ["a b"] ["x y"] =
      align_spans_bidirection tok0 simAll1 simAll1 cfgWordFwdNull0 ["a b"] ["x y"] :=
  null_align_no_effect cfgWordFwd cfgWordFwdNull0 rfl rfl rfl rfl rfl
    tok0 simAll1 mwmf0 simAll1 simAll1 ["a b"] ["x y"]

theorem subZero_refl (M : Nat → Nat → ℚ) : SubZero M M :=
  fun _ _ => Or.inl rfl

theorem subZero_trans {M2 M1 M : Nat → Nat → ℚ}
    (h2 : SubZero M2 M1) (h1 : SubZero M1 M) : SubZero M2 M := by
  intro a b
  rcases h2 a b with h | h
  · rcases h1 a b with g | g
    · exact Or.inl (h.trans g)
    · exact Or.inr (h.trans g)
  · exact Or.inr h

/-- An entry already 0 stays 0 through any zero-only rewrite. -/
theorem subZero_zero {M1 M : Nat → Nat → ℚ} (h : SubZero M1 M) {a b : Nat}
    (hz : M a b = 0) : M1 a b = 0 := by
  rcases h a b with g | g
  · rw [g, hz]
  · exact g

theorem subZero_updCell0 (x y : Nat) (M : Nat → Nat → ℚ) :
    SubZero (updCell x y 0 M) M := by
  intro a b
  unfold updCell
  split
  · exact Or.inr rfl
  · exact Or.inl rfl

theorem subZero_zeroRow (i : Nat) (M : Nat → Nat → ℚ) :
    SubZero (zeroRow i M) M := by
  intro a b
  unfold zeroRow
  split
  · exact Or.inr rfl
  · exact Or.inl rfl

theorem subZero_zeroCol (j : Nat) (M : Nat → Nat → ℚ) :
    SubZero (zeroCol j M) M := by
  intro a b
  unfold zeroCol
  split
  · exact Or.inr rfl
  · exact Or.inl rfl

theorem subZero_foldl {β : Type} (f : (Nat → Nat → ℚ) → β → (Nat → Nat → ℚ))
    (hf : ∀ M e, SubZero (f M e) M) (l : List β) (M : Nat → Nat → ℚ) :
    SubZero (l.foldl f M) M := by
  induction l generalizing M with
  | nil => exact subZero_refl M
  | cons e l ih => exact subZero_trans (ih (f M e)) (hf M e)

theorem subZero_rowPass (e : Nat) (pairs : List (Nat × List Nat))
    (M : Nat → Nat → ℚ) :
    SubZero (pairs.foldl
      (fun M1 p => if e ∈ p.2 then zeroRow p.1 M1 else M1) M) M := by
  refine subZero_foldl _ (fun M p => ?_) pairs M
  dsimp only
  split
  · exact subZero_zeroRow p.1 M
  · exact subZero_refl M

theorem subZero_colPass (e : Nat) (pairs : List (Nat × List Nat))
    (M : Nat → Nat → ℚ) :
    SubZero (pairs.foldl
      (fun M1 p => if e ∈ p.2 then zeroCol p.1 M1 else M1) M) M := by
  refine subZero_foldl _ (fun M p => ?_) pairs M
  dsimp only
  split
  · exact subZero_zeroCol p.1 M
  · exact subZero_refl M

theorem subZero_zeroSrcRows (src_spans : List (List Nat)) (x : Nat)
    (M : Nat → Nat → ℚ) : SubZero (zeroSrcRows src_spans x M) M := by
  unfold zeroSrcRows
  exact subZero_foldl _ (fun M e => subZero_rowPass e src_spans.enum M) _ M

theorem subZero_zeroTgtCols (tgt_spans : List (List Nat)) (y : Nat)
    (M : Nat → Nat → ℚ) : SubZero (zeroTgtCols tgt_spans y M) M := by
  unfold zeroTgtCols
  exact subZero_foldl _ (fun M e => subZero_colPass e tgt_spans.enum M) _ M

/-- One pass of the inner loop over `enumerate(src_spans)`: if `(a, sa)` is
enumerated and the word `e` belongs to `sa`, row `a` ends up all zero. -/
theorem rowPass_zeroes (e : Nat) (pairs : List (Nat × List Nat))
    (a : Nat) (sa : List Nat) (hmem : (a, sa) ∈ pairs) (he : e ∈ sa)
    (M : Nat → Nat → ℚ) (b : Nat) :
    (pairs.foldl (fun M1 p => if e ∈ p.2 then zeroRow p.1 M1 else M1) M) a b
      = 0 := by
  induction pairs generalizing M with
  | nil => cases hmem
  | cons p rest ih =>
    rw [List.foldl_cons]
    rcases List.mem_cons.mp hmem with heq | hmem2
    · have hstep : (if e ∈ p.2 then zeroRow p.1 M else M) = zeroRow a M := by
        rw [← heq]
        rw [if_pos he]
      rw [hstep]
      exact subZero_zero (subZero_rowPass e rest (zeroRow a M))
        (by simp [zeroRow])
    · exact ih hmem2 _

/-- One pass of the inner loop over `enumerate(tgt_spans)`: if `(c, tc)` is
enumerated and the word `e` belongs to `tc`, column `c` ends up all zero. -/
theorem colPass_zeroes (e : Nat) (pairs : List (Nat × List Nat))
    (c : Nat) (tc : List Nat) (hmem : (c, tc) ∈ pairs) (he : e ∈ tc)
    (M : Nat → Nat → ℚ) (a : Nat) :
    (pairs.foldl (fun M1 p => if e ∈ p.2 then zeroCol p.1 M1 else M1) M) a c
      = 0 := by
  induction pairs generalizing M with
  | nil => cases hmem
  | cons p rest ih =>
    rw [List.foldl_cons]
    rcases List.mem_cons.mp hmem with heq | hmem2
    · have hstep : (if e ∈ p.2 then zeroCol p.1 M else M) = zeroCol c M := by
        rw [← heq]
        rw [if_pos he]
      rw [hstep]
      exact subZero_zero (subZero_colPass e rest (zeroCol c M))
        (by simp [zeroCol])
    · exact ih hmem2 _

theorem mem_enum_getD (l : List (List Nat)) (a : Nat) (ha : a < l.length) :
    (a, l.getD a []) ∈ l.enum := by
  rw [List.mk_mem_enum_iff_getElem?]
  rw [List.getElem?_eq_getElem ha, List.getD_eq_getElem?_getD,
    List.getElem?_eq_getElem ha]
  rfl

/-- `zeroSrcRows` zeroes every row whose span shares a word with the
committed source span. -/
theorem zeroSrcRows_zeroes (src_spans : List (List Nat)) (x a : Nat)
    (ha : a < src_spans.length) (e0 : Nat)
    (hex : e0 ∈ src_spans.getD x []) (hea : e0 ∈ src_spans.getD a [])
    (M : Nat → Nat → ℚ) (b : Nat) :
    zeroSrcRows src_spans x M a b = 0 := by
  unfold zeroSrcRows
  have hmem := mem_enum_getD src_spans a ha
  revert hex
  generalize src_spans.getD x [] = es
  intro hex
  induction es generalizing M with
  | nil => cases hex
  | cons e1 rest ih =>
    rw [List.foldl_cons]
    rcases List.mem_cons.mp hex with heq | hex2
    · subst heq
      exact subZero_zero
        (subZero_foldl _ (fun M0 e => subZero_rowPass e src_spans.enum M0)
          rest _)
        (rowPass_zeroes e0 src_spans.enum a (src_spans.getD a []) hmem hea M b)
    · exact ih _ hex2

/-- `zeroTgtCols` zeroes every column whose span shares a word with the
committed target span. -/
theorem zeroTgtCols_zeroes (tgt_spans : List (List Nat)) (y c : Nat)
    (hc : c < tgt_spans.length) (e0 : Nat)
    (hex : e0 ∈ tgt_spans.getD y []) (hec : e0 ∈ tgt_spans.getD c [])
    (M : Nat → Nat → ℚ) (a : Nat) :
    zeroTgtCols tgt_spans y M a c = 0 := by
  unfold zeroTgtCols
  have hmem := mem_enum_getD tgt_spans c hc
  revert hex
  generalize tgt_spans.getD y [] = es
  intro hex
  induction es generalizing M with
  | nil => cases hex
  | cons e1 rest ih =>
    rw [List.foldl_cons]
    rcases List.mem_cons.mp hex with heq | hex2
    · subst heq
      exact subZero_zero
        (subZero_foldl _ (fun M0 e => subZero_colPass e tgt_spans.enum M0)
          rest _)
        (colPass_zeroes e0 tgt_spans.enum c (tgt_spans.getD c []) hmem hec M a)
    · exact ih _ hex2

theorem mem_pairsRM {m n : Nat} {p : Nat × Nat} :
    p ∈ pairsRM m n ↔ p.1 < m ∧ p.2 < n := by
  unfold pairsRM
  simp only [List.mem_flatMap, List.mem_range, List.mem_map]
  constructor
  · rintro ⟨i, hi, j, hj, rfl⟩
    exact ⟨hi, hj⟩
  · rintro ⟨h1, h2⟩
    exact ⟨p.1, h1, p.2, h2, rfl⟩

theorem foldl_max_choice (l : List ℚ) :
    ∀ init : ℚ, l.foldl max init = init ∨ l.foldl max init ∈ l := by
  induction l with
  | nil =>
    intro init
    left
    rfl
  | cons x l ih =>
    intro init
    rw [List.foldl_cons]
    rcases ih (max init x) with h | h
    · rcases max_choice init x with g | g
      · left
        rw [h, g]
      · right
        rw [h, g]
        exact List.mem_cons_self x l
    · right
      exact List.mem_cons_of_mem x h

/-- When the loop guard holds, the maximum is attained on some cell. -/
theorem matMax_attained (m n : Nat) (M : Nat → Nat → ℚ)
    (h : 0 < matMax m n M) :
    ∃ p ∈ pairsRM m n, M p.1 p.2 = matMax m n M := by
  have hfold : matMax m n M = ((pairsRM m n).map (fun p => M p.1 p.2)).foldl max 0 := by
    rw [matMax, List.foldl_map]
  rcases foldl_max_choice ((pairsRM m n).map (fun p => M p.1 p.2)) 0 with hz | hm
  · rw [hfold, hz] at h
    exact absurd h (lt_irrefl 0)
  · rw [← hfold] at hm
    obtain ⟨p, hp, hpv⟩ := List.mem_map.mp hm
    exact ⟨p, hp, hpv⟩

/-- Under the loop guard, `firstMaxCell` is a real cell of the matrix and
carries the maximum value. -/
theorem firstMaxCell_spec (m n : Nat) (M : Nat → Nat → ℚ)
    (h : 0 < matMax m n M) :
    (firstMaxCell m n M).1 < m ∧ (firstMaxCell m n M).2 < n ∧
    M (firstMaxCell m n M).1 (firstMaxCell m n M).2 = matMax m n M := by
  obtain ⟨p, hp, hpv⟩ := matMax_attained m n M h
  obtain ⟨q, hq⟩ : ∃ q, (pairsRM m n).find?
      (fun r => decide (M r.1 r.2 = matMax m n M)) = some q := by
    cases hfind : (pairsRM m n).find?
        (fun r => decide (M r.1 r.2 = matMax m n M)) with
    | none =>
      rw [List.find?_eq_none] at hfind
      exact absurd (by simp [hpv]) (hfind p hp)
    | some q => exact ⟨q, rfl⟩
  have hqmem := List.mem_of_find?_eq_some hq
  have hqval := List.find?_some hq
  have hfc : firstMaxCell m n M = q := by
    rw [firstMaxCell, hq]
    rfl
  rw [hfc]
  have hmn := mem_pairsRM.mp hqmem
  exact ⟨hmn.1, hmn.2, of_decide_eq_true hqval⟩

theorem spanConflictFree_symm (src_spans tgt_spans : List (List Nat)) :
    Symmetric (spanConflictFree src_spans tgt_spans) := by
  rintro p q ⟨h1, h2⟩
  exact ⟨fun e heq hep => h1 e hep heq, fun e heq hep => h2 e hep heq⟩

/-- The committed list of the span-iterative loop stays pairwise
conflict-free: each new cell is taken at a still-positive entry, and the
invariant says any row or column in conflict with an earlier commitment has
already been zeroed out. -/
theorem alignIterGo_pairwise (src_spans tgt_spans : List (List Nat))
    (m n : Nat) (hs : src_spans.length = m) (ht : tgt_spans.length = n) :
    ∀ (fuel : Nat) (M : Nat → Nat → ℚ) (acc : List (Nat × Nat)),
      IterInv src_spans tgt_spans M acc →
      ((alignIterGo src_spans tgt_spans m n fuel M acc).1).Pairwise
        (spanConflictFree src_spans tgt_spans) := by
  intro fuel
  induction fuel with
  | zero =>
    intro M acc h
    exact h.1
  | succ fuel ih =>
    intro M acc h
    simp only [alignIterGo]
    split
    case isTrue hpos =>
      obtain ⟨hc1, hc2, hcv⟩ := firstMaxCell_spec m n M hpos
      set c := firstMaxCell m n M with hc
      have hnew : ∀ p ∈ acc, spanConflictFree src_spans tgt_spans p c := by
        intro p hp
        constructor
        · intro e hep hec
          have hz := h.2.1 p hp c.1 (by omega) ⟨e, hep, hec⟩ c.2
          rw [hz] at hcv
          rw [← hcv] at hpos
          exact absurd hpos (lt_irrefl 0)
        · intro e hep hec
          have hz := h.2.2 p hp c.2 (by omega) ⟨e, hep, hec⟩ c.1
          rw [hz] at hcv
          rw [← hcv] at hpos
          exact absurd hpos (lt_irrefl 0)
      have hpw : (acc ++ [c]).Pairwise (spanConflictFree src_spans tgt_spans) := by
        rw [List.pairwise_append]
        refine ⟨h.1, List.pairwise_singleton _ _, ?_⟩
        intro p hp q hq
        rw [List.mem_singleton] at hq
        subst hq
        exact hnew p hp
      have hszM1 : SubZero (updCell c.1 c.2 0 M) M := subZero_updCell0 c.1 c.2 M
      have hszM2 : SubZero (zeroSrcRows src_spans c.1 (updCell c.1 c.2 0 M))
          (updCell c.1 c.2 0 M) := subZero_zeroSrcRows src_spans c.1 _
      have hszM3 : SubZero
          (zeroTgtCols tgt_spans c.2 (zeroSrcRows src_spans c.1 (updCell c.1 c.2 0 M)))
          (zeroSrcRows src_spans c.1 (updCell c.1 c.2 0 M)) :=
        subZero_zeroTgtCols tgt_spans c.2 _
      have hsz : SubZero
          (zeroTgtCols tgt_spans c.2 (zeroSrcRows src_spans c.1 (updCell c.1 c.2 0 M))) M :=
        subZero_trans (subZero_trans hszM3 hszM2) hszM1
      refine ih _ (acc ++ [c]) ⟨hpw, ?_, ?_⟩
      · intro p hp a ha hex b
        rcases List.mem_append.mp hp with hpacc | hpc
        · exact subZero_zero hsz (h.2.1 p hpacc a ha hex b)
        · rw [List.mem_singleton] at hpc
          subst hpc
          obtain ⟨e, hep, hea⟩ := hex
          exact subZero_zero hszM3
            (zeroSrcRows_zeroes src_spans c.1 a ha e hep hea _ b)
      · intro p hp cl hcl hex a
        rcases List.mem_append.mp hp with hpacc | hpc
        · exact subZero_zero hsz (h.2.2 p hpacc cl hcl hex a)
        · rw [List.mem_singleton] at hpc
          subst hpc
          obtain ⟨e, hep, hec⟩ := hex
          exact zeroTgtCols_zeroes tgt_spans c.2 cl hcl e hep hec _ a
    case isFalse =>
      exact h.1

/-- Claim C5: in span-iterative matching, with a nonnegative similarity
matrix and span lists matching the matrix dimensions, any two distinct
committed span pairs are conflict-free: no source word index is shared by
their source spans and no target word index is shared by their target
spans. -/
theorem get_alignmatrix_iter_conflict_free (m n : Nat)
    (sim : Nat → Nat → ℚ) (src_spans tgt_spans : List (List Nat))
    (hs : src_spans.length = m) (ht : tgt_spans.length = n)
    (hnn : ∀ i j, 0 ≤ sim i j) (i j k l : Nat)
    (hij : get_alignmatrix_iter m n sim src_spans tgt_spans i j = 1)
    (hkl : get_alignmatrix_iter m n sim src_spans tgt_spans k l = 1)
    (hne : (i, j) ≠ (k, l)) :
    (∀ e, e ∈ src_spans.getD i [] → e ∉ src_spans.getD k []) ∧
    (∀ e, e ∈ tgt_spans.getD j [] → e ∉ tgt_spans.getD l []) := by
  have hmem1 : (i, j) ∈ (alignIterRun m n sim src_spans tgt_spans).1 := by
    by_contra hcon
    simp only [get_alignmatrix_iter, if_neg hcon] at hij
    norm_num at hij
  have hmem2 : (k, l) ∈ (alignIterRun m n sim src_spans tgt_spans).1 := by
    by_contra hcon
    simp only [get_alignmatrix_iter, if_neg hcon] at hkl
    norm_num at hkl
  have hpw : ((alignIterRun m n sim src_spans tgt_spans).1).Pairwise
      (spanConflictFree src_spans tgt_spans) := by
    rw [alignIterRun]
    refine alignIterGo_pairwise src_spans tgt_spans m n hs ht (m * n) sim []
      ⟨List.Pairwise.nil, ?_, ?_⟩
    · intro p hp
      cases hp
    · intro p hp
      cases hp
  exact hpw.forall (spanConflictFree_symm src_spans tgt_spans) hmem1 hmem2 hne

/-- Witness for C5 on a 2 x 2 matrix with a strict peak: the matcher commits
(0,0) and (1,1), and their spans are disjoint on both sides. -/
theorem get_alignmatrix_iter_conflict_free_witness :
    get_alignmatrix_iter 2 2 simPeak [[0], [1]] [[0], [1]] 0 0 = 1 ∧
    get_alignmatrix_iter 2 2 simPeak [[0], [1]] [[0], [1]] 1 1 = 1 ∧
    ((∀ e, e ∈ (([[0], [1]] : List (List Nat)).getD 0 []) →
        e ∉ (([[0], [1]] : List (List Nat)).getD 1 [])) ∧
     (∀ e, e ∈ (([[0], [1]] : List (List Nat)).getD 0 []) →
        e ∉ (([[0], [1]] : List (List Nat)).getD 1 []))) :=
  ⟨by decide, by decide,
    get_alignmatrix_iter_conflict_free 2 2 simPeak [[0], [1]] [[0], [1]]
      rfl rfl
      (fun i j => by
        unfold simPeak
        split <;> norm_num)
      0 0 1 1 (by decide) (by decide) (by decide)⟩

end Simalign
